import Mathlib

/-!
Shallow embedding of `src/track_split.py` (audio_track_split).

The embedding mirrors the Python source:
* Python strings are Lean `String`s, manipulated through their `data`
  (`List Char`) exactly as `str.split(maxsplit=n)`, `str.rpartition(' ')`,
  `str.strip()`, `str.strip('\x27\x22')` and `str.lower()` behave on them.
* The `defaultdict(str)` records of the parser are association lists where a
  write conses the new binding in front (later writes shadow earlier ones,
  matching dict update), a read of a missing key yields `""`, and key
  membership tests only see explicitly written keys -- observationally the
  behaviour of the Python records for everything the parser reads.
* Fallible Python code (a raised `ValueError` from `strptime`, an
  `IndexError` from indexing an empty track list) is modelled with `Option`:
  `none` is an exception propagating out of `CueParser.parse`.
-/

/-- Python `str.isspace` characters that `split`/`strip` treat as separators
(ASCII whitespace: space, tab, newline, carriage return, vertical tab,
form feed). -/
def pyIsSpace (c : Char) : Bool :=
  c = ' ' || c = '\t' || c = '\n' || c = '\r' || c = Char.ofNat 11 || c = Char.ofNat 12

/-- The two quote characters stripped by `str.strip('\x27\x22')` in
`CueParser._parse_tag`. -/
def isQuoteChar (c : Char) : Bool :=
  c = Char.ofNat 39 || c = Char.ofNat 34

/-- Strip characters satisfying `p` from both ends of a character list. -/
def stripEnds (p : Char → Bool) (l : List Char) : List Char :=
  ((l.dropWhile p).reverse.dropWhile p).reverse

/-- Python `str.strip()` (no arguments): remove leading and trailing
whitespace. -/
def pyStrip (s : String) : String :=
  String.mk (stripEnds pyIsSpace s.data)

/-- Python `str.strip('\x27\x22')`: remove leading and trailing quote
characters, as used on tag values in `CueParser._parse_tag`. -/
def stripQuotes (s : String) : String :=
  String.mk (stripEnds isQuoteChar s.data)

/-- Python `str.split(maxsplit=1)`: at most two pieces; leading whitespace
is discarded, the remainder after the first token keeps its internal and
trailing whitespace (its leading whitespace is consumed). -/
def pySplit1 (s : String) : List String :=
  let cs := s.data.dropWhile pyIsSpace
  match cs with
  | [] => []
  | _ :: _ =>
    let tok := cs.takeWhile (fun c => !pyIsSpace c)
    let rest := (cs.dropWhile (fun c => !pyIsSpace c)).dropWhile pyIsSpace
    match rest with
    | [] => [String.mk tok]
    | _ :: _ => [String.mk tok, String.mk rest]

/-- Python `str.split(maxsplit=2)`: at most three pieces, same whitespace
conventions as `pySplit1`. -/
def pySplit2 (s : String) : List String :=
  let cs := s.data.dropWhile pyIsSpace
  match cs with
  | [] => []
  | _ :: _ =>
    let tok₁ := cs.takeWhile (fun c => !pyIsSpace c)
    let r₁ := (cs.dropWhile (fun c => !pyIsSpace c)).dropWhile pyIsSpace
    match r₁ with
    | [] => [String.mk tok₁]
    | _ :: _ =>
      let tok₂ := r₁.takeWhile (fun c => !pyIsSpace c)
      let r₂ := (r₁.dropWhile (fun c => !pyIsSpace c)).dropWhile pyIsSpace
      match r₂ with
      | [] => [String.mk tok₁, String.mk tok₂]
      | _ :: _ => [String.mk tok₁, String.mk tok₂, String.mk r₂]

/-- Python `line.rpartition(' ')[0]`: everything before the last literal
space character, or the empty string when the line contains no space. -/
def rpartBefore (s : String) : String :=
  match s.data.reverse.dropWhile (fun c => c ≠ ' ') with
  | [] => ""
  | _ :: t => String.mk t.reverse

/-- Python `str.lower()` restricted to ASCII letters, the only case the
parser's tag keys exercise. -/
def asciiLower (s : String) : String :=
  String.mk (s.data.map (fun c => if 'A' ≤ c ∧ c ≤ 'Z' then Char.ofNat (c.toNat + 32) else c))

/-- Value of a decimal digit character, `none` for non-digits. -/
def digitVal? (c : Char) : Option Nat :=
  if '0' ≤ c ∧ c ≤ '9' then some (c.toNat - 48) else none

/-!
`convert_timestamp` in the source calls `datetime.strptime` with the
formats `%M:%S:%f` and `%H:%M:%S.%f`.  CPython's `_strptime` matches `%H`
with the regex `2[0-3]|[0-1]\d|\d`, `%M` with `[0-5]\d|\d`, `%S` with
`6[0-1]|[0-5]\d|\d` and `%f` with `[0-9]\x7b1,6\x7d`; in both formats every
numeric field is followed by a non-digit literal (or the end of the
string), so the backtracking regex is equivalent to the deterministic
two-digit-first parsers below.  `datetime` construction additionally
rejects seconds of 60 or 61, which the callers of `parseSfield` check.
The `%f` digits are right-padded to microseconds.  A failed match (or an
out-of-range component) raises `ValueError`, modelled as `none`.
-/

/-- `%H` field: two digits when they form 00..23, else one digit. -/
def parseHfield : List Char → Option (Nat × List Char)
  | c₁ :: c₂ :: rest =>
    match digitVal? c₁, digitVal? c₂ with
    | some d₁, some d₂ =>
      if d₁ ≤ 1 ∨ (d₁ = 2 ∧ d₂ ≤ 3) then some (d₁ * 10 + d₂, rest)
      else some (d₁, c₂ :: rest)
    | some d₁, none => some (d₁, c₂ :: rest)
    | none, _ => none
  | [c₁] =>
    match digitVal? c₁ with
    | some d₁ => some (d₁, [])
    | none => none
  | [] => none

/-- `%M` field: two digits when they form 00..59, else one digit. -/
def parseMfield : List Char → Option (Nat × List Char)
  | c₁ :: c₂ :: rest =>
    match digitVal? c₁, digitVal? c₂ with
    | some d₁, some d₂ =>
      if d₁ ≤ 5 then some (d₁ * 10 + d₂, rest)
      else some (d₁, c₂ :: rest)
    | some d₁, none => some (d₁, c₂ :: rest)
    | none, _ => none
  | [c₁] =>
    match digitVal? c₁ with
    | some d₁ => some (d₁, [])
    | none => none
  | [] => none

/-- `%S` field: two digits when they form 00..61, else one digit
(the 60/61 leap values match the regex but are rejected by the
`datetime` constructor; callers check `≤ 59`). -/
def parseSfield : List Char → Option (Nat × List Char)
  | c₁ :: c₂ :: rest =>
    match digitVal? c₁, digitVal? c₂ with
    | some d₁, some d₂ =>
      if d₁ ≤ 5 ∨ (d₁ = 6 ∧ d₂ ≤ 1) then some (d₁ * 10 + d₂, rest)
      else some (d₁, c₂ :: rest)
    | some d₁, none => some (d₁, c₂ :: rest)
    | none, _ => none
  | [c₁] =>
    match digitVal? c₁ with
    | some d₁ => some (d₁, [])
    | none => none
  | [] => none

/-- `%f` at the end of the format: one to six digits which must exhaust the
remaining input (anything left over is "unconverted data" and raises);
the digits are right-padded with zeros to a microsecond count. -/
def parseFfield (cs : List Char) : Option Nat :=
  let ds := cs.takeWhile (fun c => (digitVal? c).isSome)
  let rest := cs.dropWhile (fun c => (digitVal? c).isSome)
  if ds.length = 0 ∨ 6 < ds.length ∨ rest ≠ [] then none
  else some ((ds.foldl (fun a c => a * 10 + ((digitVal? c).getD 0)) 0) * 10 ^ (6 - ds.length))

/-- `datetime.strptime(s, '%M:%S:%f')` as microseconds past midnight
(the date part is the epoch 1900-01-01 and never varies). -/
def pMSF (s : String) : Option Nat :=
  match parseMfield s.data with
  | some (m, ':' :: rest₁) =>
    match parseSfield rest₁ with
    | some (sec, ':' :: rest₂) =>
      if sec ≤ 59 then
        match parseFfield rest₂ with
        | some f => some ((m * 60 + sec) * 1000000 + f)
        | none => none
      else none
    | _ => none
  | _ => none

/-- `datetime.strptime(s, '%H:%M:%S.%f')` as microseconds past midnight. -/
def pHMSF (s : String) : Option Nat :=
  match parseHfield s.data with
  | some (h, ':' :: rest₁) =>
    match parseMfield rest₁ with
    | some (m, ':' :: rest₂) =>
      match parseSfield rest₂ with
      | some (sec, '.' :: rest₃) =>
        if sec ≤ 59 then
          match parseFfield rest₃ with
          | some f => some (((h * 60 + m) * 60 + sec) * 1000000 + f)
          | none => none
        else none
      | _ => none
    | _ => none
  | _ => none

/-- The character list produced by `strftime('%H:%M:%S.%f')` on a datetime
`μ` microseconds after the 1900-01-01 midnight anchor: the day overflow is
dropped, so the printed hour is taken modulo 24. -/
def fmtChars (μ : Nat) : List Char :=
  let h := μ / 3600000000 % 24
  let m := μ / 60000000 % 60
  let s := μ / 1000000 % 60
  let f := μ % 1000000
  [Nat.digitChar (h / 10), Nat.digitChar (h % 10), ':',
   Nat.digitChar (m / 10), Nat.digitChar (m % 10), ':',
   Nat.digitChar (s / 10), Nat.digitChar (s % 10), '.',
   Nat.digitChar (f / 100000), Nat.digitChar (f / 10000 % 10), Nat.digitChar (f / 1000 % 10),
   Nat.digitChar (f / 100 % 10), Nat.digitChar (f / 10 % 10), Nat.digitChar (f % 10)]

/-- `strftime('%H:%M:%S.%f')` output string. -/
def formatHMSF (μ : Nat) : String :=
  String.mk (fmtChars μ)

/-- `convert_timestamp(timestamp, offset=offset)` from the source: parse
the cue timestamp as `%M:%S:%f`, the offset as `%H:%M:%S.%f` (the
subtraction of the `'00:00:00'` base leaves exactly the offset's
microseconds), add, and format.  A `strptime` failure raises, i.e. `none`. -/
def convert_timestamp (timestamp : String) (offset : String) : Option String :=
  match pMSF timestamp, pHMSF offset with
  | some tv, some ov => some (formatHMSF (tv + ov))
  | _, _ => none


/-!  The parser's records.  `defaultdict(str)` reads of missing keys give
`""` (and the claims never observe the key insertion such a read performs);
a write shadows earlier bindings. -/

/-- A disc or track record: `defaultdict(str)` in the source. -/
abbrev Record := List (String × String)

/-- Read a key, defaulting to the empty string (`defaultdict(str)`). -/
def rget (r : Record) (k : String) : String :=
  match r.find? (fun p => p.1 == k) with
  | some p => p.2
  | none => ""

/-- Python `key in record`: membership of explicitly written keys. -/
def rhas (r : Record) (k : String) : Bool :=
  (r.find? (fun p => p.1 == k)).isSome

/-- `record[key] = value`: the new binding shadows earlier ones. -/
def rset (r : Record) (k v : String) : Record :=
  (k, v) :: r

/-- The `defaultdict(int)` of seen titles in `_get_unique_titles`. -/
abbrev Counts := List (String × Nat)

/-- Read a count, defaulting to zero. -/
def cget (c : Counts) (k : String) : Nat :=
  match c.find? (fun p => p.1 == k) with
  | some p => p.2
  | none => 0

/-- Python `key in counts`. -/
def chas (c : Counts) (k : String) : Bool :=
  (c.find? (fun p => p.1 == k)).isSome

/-- `counts[key] += 1` (a missing key reads as zero first). -/
def cinc (c : Counts) (k : String) : Counts :=
  (k, cget c k + 1) :: c

/-- The mutable state of a `CueParser` during one `parse` invocation:
`self._disc` and `self._tracks`. -/
structure CueState where
  disc : Record
  tracks : List Record
  deriving DecidableEq, Repr

/-- `CueParser._parse_tag(target, line)`: split into key and value at the
first whitespace run; on success store `value.strip(quotes)` under the
lower-cased key and report `True`, otherwise leave the record alone. -/
def parse_tag (line : String) (r : Record) : Bool × Record :=
  match pySplit1 line with
  | [k, v] => (true, rset r (asciiLower k) (stripQuotes v))
  | _ => (false, r)

/-- `CueParser._parse_comment_tag(target, line)`: a three-token `REM k v`
line is re-routed through `parse_tag` as `k v`. -/
def parse_comment_tag (line : String) (r : Record) : Bool × Record :=
  match pySplit2 line with
  | [w, k, v] => if w = "REM" then parse_tag (k ++ " " ++ v) r else (false, r)
  | _ => (false, r)

/-- `CueParser._parse_file_tag(line)`: a line splitting as `FILE rest`
feeds `line.rpartition(' ')[0]` to `parse_tag` against the disc record. -/
def parse_file_tag (line : String) (st : CueState) : Bool × CueState :=
  match pySplit1 line with
  | [w, _] =>
    if w = "FILE" then
      let p := parse_tag (rpartBefore line) st.disc
      (p.1, ⟨p.2, st.tracks⟩)
    else (false, st)
  | _ => (false, st)

/-- `CueParser._parse_track_tag(line)`: a three-token `TRACK ...` line
appends a fresh track record and runs `parse_tag` on
`line.rpartition(' ')[0]` against it (the append happens even when that
inner `parse_tag` fails). -/
def parse_track_tag (line : String) (st : CueState) : Bool × CueState :=
  match pySplit2 line with
  | [w, _, _] =>
    if w = "TRACK" then
      let p := parse_tag (rpartBefore line) ([] : Record)
      (p.1, ⟨st.disc, st.tracks ++ [p.2]⟩)
    else (false, st)
  | _ => (false, st)

/-- `CueParser._parse_index_tag(line)`: on a three-token `INDEX n ts` line
the timestamp is converted first (a malformed one raises); index `01`
stores `START ts` on `self._tracks[-1]` (IndexError when no track exists),
any other index stores `END ts` on `self._tracks[-2]` provided at least two
tracks exist, and otherwise the method reports `False`. -/
def parse_index_tag (offset : String) (line : String) (st : CueState) :
    Option (Bool × CueState) :=
  match pySplit2 line with
  | [w, n, ts] =>
    if w = "INDEX" then
      match convert_timestamp ts offset with
      | none => none
      | some t =>
        if n = "01" then
          match st.tracks.reverse with
          | [] => none
          | last :: init =>
            let p := parse_tag ("START " ++ t) last
            some (p.1, ⟨st.disc, (p.2 :: init).reverse⟩)
        else if 2 ≤ st.tracks.length then
          match st.tracks.reverse with
          | t₁ :: t₂ :: init =>
            let p := parse_tag ("END " ++ t) t₂
            some (p.1, ⟨st.disc, (t₁ :: p.2 :: init).reverse⟩)
          | _ => none
        else some (false, st)
    else some (false, st)
  | _ => some (false, st)

/-- The body of `_parse_track`'s loop for a line that is not a track tag:
try the index tag, then the comment tag and the generic tag against
`self._tracks[-1]` (an IndexError -- `none` -- when no track exists). -/
def handle_track_line (offset : String) (line : String) (st : CueState) :
    Option CueState :=
  match parse_index_tag offset line st with
  | none => none
  | some (true, st₁) => some st₁
  | some (false, st₁) =>
    match st₁.tracks.reverse with
    | [] => none
    | last :: init =>
      let pc := parse_comment_tag line last
      if pc.1 then some ⟨st₁.disc, (pc.2 :: init).reverse⟩
      else
        let pt := parse_tag line pc.2
        some ⟨st₁.disc, (pt.2 :: init).reverse⟩

/-- `CueParser._readline(doc)`: the next line stripped of surrounding
whitespace; past the end of the stream it is the empty string.  The
document is the list of remaining raw lines. -/
def readline (doc : List String) : String × List String :=
  match doc with
  | [] => ("", [])
  | l :: ls => (pyStrip l, ls)

/-- `CueParser._parse_disc(doc)`: consume lines until the file tag fires
(that line included) or until a falsy line, applying comment and generic
tags to the disc record.  Returns the state and the unconsumed lines. -/
def parse_disc : List String → CueState → CueState × List String
  | [], st => (st, [])
  | l :: rest, st =>
    let line := pyStrip l
    if line = "" then (st, rest)
    else
      let pf := parse_file_tag line st
      if pf.1 then (pf.2, rest)
      else
        let pc := parse_comment_tag line pf.2.disc
        let d₁ := if pc.1 then pc.2 else (parse_tag line pc.2).2
        parse_disc rest ⟨d₁, pf.2.tracks⟩

/-- The `while line: line = self._parse_track(doc)` loop of `parse`,
merged with `_parse_track`'s inner loop: they jointly process one line at
a time -- a falsy line stops, a track tag pushes a new track, any other
line goes through `handle_track_line` (whose exceptions propagate). -/
def parse_tracks (offset : String) : List String → CueState → Option CueState
  | [], st => some st
  | l :: rest, st =>
    let line := pyStrip l
    if line = "" then some st
    else
      let pt := parse_track_tag line st
      if pt.1 then parse_tracks offset rest pt.2
      else
        match handle_track_line offset line pt.2 with
        | none => none
        | some st₂ => parse_tracks offset rest st₂

/-- `CueParser._complete_endings`: for every track but the last without an
`end`, copy the following track's `start` (a `defaultdict` read, so `""`
when that track has none). -/
def completeEndings : List Record → List Record
  | [] => []
  | [t] => [t]
  | t :: t' :: rest =>
    (if rhas t "end" then t else rset t "end" (rget t' "start")) ::
      completeEndings (t' :: rest)

/-- `CueParser._get_unique_titles`, folding the running title counts over
the track list.  Note the Python local `title` is rebound in the performer
branch, so there the count of the rewritten title is incremented, while in
the other branches the original title's count is. -/
def getUniqueTitlesAux (counts : Counts) : List Record → List Record
  | [] => []
  | track :: rest =>
    let title := rget track "title"
    if chas counts title then
      if rhas track "performer" then
        let title' := title ++ " (" ++ rget track "performer" ++ " ver.)"
        rset track "title" title' :: getUniqueTitlesAux (cinc counts title') rest
      else
        rset track "title" (title ++ " (ver. " ++ toString (cget counts title) ++ ")") ::
          getUniqueTitlesAux (cinc counts title) rest
    else track :: getUniqueTitlesAux (cinc counts title) rest

/-- The two post-processing passes run at the end of `parse`, in source
order: `_complete_endings` then `_get_unique_titles`. -/
def postState (st : CueState) : CueState :=
  ⟨st.disc, getUniqueTitlesAux [] (completeEndings st.tracks)⟩

/-- `CueParser.parse(doc)` for a parser constructed with the given offset:
clear the state, run the disc phase, read one line and try only the track
tag on it (a non-track line here is dropped), then -- when that line was
truthy -- run the track loop, and finally post-process.  `none` is an
exception escaping `parse`. -/
def parse (offset : String) (doc : List String) : Option CueState :=
  let p := parse_disc doc ⟨[], []⟩
  let r := readline p.2
  let pt := parse_track_tag r.1 p.1
  if r.1 = "" then some (postState pt.2)
  else (parse_tracks offset r.2 pt.2).map postState

/-- Specification-level description of the title pass: it depends only on
each track's title and optional performer.  Scanning in order with running
counts, an unseen title is kept; a seen title becomes
`title (performer ver.)` when a performer is present (and the rewritten
title's count is bumped), else `title (ver. n)` with `n` the original
title's running count (which is then bumped). -/
def disambiguate (counts : Counts) : List (String × Option String) → List String
  | [] => []
  | (ti, perf) :: rest =>
    if chas counts ti then
      match perf with
      | some p =>
        let t' := ti ++ " (" ++ p ++ " ver.)"
        t' :: disambiguate (cinc counts t') rest
      | none =>
        (ti ++ " (ver. " ++ toString (cget counts ti) ++ ")") ::
          disambiguate (cinc counts ti) rest
    else ti :: disambiguate (cinc counts ti) rest

/-- The `INVALID_CHARACTERS` table of the source, in its insertion
order: each reserved filesystem character mapped to its visually similar
substitute (the double quote maps to an apostrophe). -/
def INVALID_CHARACTERS : List (Char × Char) :=
  [('<', '‹'), ('>', '›'), (':', '：'), (Char.ofNat 34, Char.ofNat 39),
   ('/', '／'), ('\\', '＼'), ('|', '∣'), ('?', '？'), ('*', '＊')]

/-- Python `title.replace(a, b)` for one-character strings: a per-character
substitution. -/
def pyReplaceChar (s : String) (a b : Char) : String :=
  String.mk (s.data.map (fun c => if c = a then b else c))

/-- `replace_invalid_characters(title)` from the source: run one `replace`
per table entry, in table order, then `strip()` the result. -/
def replace_invalid_characters (title : String) : String :=
  pyStrip (INVALID_CHARACTERS.foldl (fun t p => pyReplaceChar t p.1 p.2) title)

/-- The composite per-character substitution performed by the nine
sequential `replace` calls: since no substitute character is itself a
later target, the sequential substitution equals this single dispatch on
the original character (`replace_invalid_eq_map` proves the equality with
the fold from the source). -/
def substAll (c : Char) : Char :=
  if c = '<' then '‹'
  else if c = '>' then '›'
  else if c = ':' then '：'
  else if c = Char.ofNat 34 then Char.ofNat 39
  else if c = '/' then '／'
  else if c = '\\' then '＼'
  else if c = '|' then '∣'
  else if c = '?' then '？'
  else if c = '*' then '＊'
  else c


/-! Basic facts about records and counts. -/

theorem rget_rset_self (r : Record) (k v : String) : rget (rset r k v) k = v := by
  simp [rget, rset, List.find?]

theorem rget_rset_ne (r : Record) (k v k' : String) (h : k' ≠ k) :
    rget (rset r k v) k' = rget r k' := by
  simp only [rget, rset, List.find?_cons]
  have : (k == k') = false := by simp [Ne.symm h]
  simp [this]

theorem rhas_rset_self (r : Record) (k v : String) : rhas (rset r k v) k = true := by
  simp [rhas, rset, List.find?]

theorem rhas_rset_ne (r : Record) (k v k' : String) (h : k' ≠ k) :
    rhas (rset r k v) k' = rhas r k' := by
  simp only [rhas, rset, List.find?_cons]
  have : (k == k') = false := by simp [Ne.symm h]
  simp [this]

/-! Facts about the end-inference pass `_complete_endings`. -/

theorem completeEndings_length (ts : List Record) :
    (completeEndings ts).length = ts.length := by
  induction ts with
  | nil => rfl
  | cons t rest ih =>
    cases rest with
    | nil => rfl
    | cons t' rest' => simp [completeEndings, ih]

theorem completeEndings_hasEnd (ts : List Record) (i : Nat) (h : i + 1 < ts.length) :
    rhas ((completeEndings ts).getD i []) "end" = true := by
  induction ts generalizing i with
  | nil => simp at h
  | cons t rest ih =>
    cases rest with
    | nil => simp at h
    | cons t' rest' =>
      cases i with
      | zero =>
        simp only [completeEndings, List.getD_cons_zero]
        by_cases he : rhas t "end"
        · simp [he]
        · simp [he, rhas_rset_self]
      | succ j =>
        simp only [completeEndings, List.getD_cons_succ]
        exact ih j (by simpa using Nat.lt_of_succ_lt_succ h)

theorem completeEndings_end_value (ts : List Record) (i : Nat) (h : i + 1 < ts.length)
    (hno : rhas (ts.getD i []) "end" = false) :
    rget ((completeEndings ts).getD i []) "end" = rget (ts.getD (i + 1) []) "start" := by
  induction ts generalizing i with
  | nil => simp at h
  | cons t rest ih =>
    cases rest with
    | nil => simp at h
    | cons t' rest' =>
      cases i with
      | zero =>
        simp only [List.getD_cons_zero] at hno
        simp only [completeEndings, List.getD_cons_zero, hno, Bool.false_eq_true,
          if_false, List.getD_cons_succ]
        exact rget_rset_self _ _ _
      | succ j =>
        simp only [completeEndings, List.getD_cons_succ]
        simp only [List.getD_cons_succ] at hno
        exact ih j (by simpa using Nat.lt_of_succ_lt_succ h) hno

theorem completeEndings_preserve (ts : List Record) (i : Nat) (k : String)
    (hk : k ≠ "end") :
    rget ((completeEndings ts).getD i []) k = rget (ts.getD i []) k ∧
    rhas ((completeEndings ts).getD i []) k = rhas (ts.getD i []) k := by
  induction ts generalizing i with
  | nil => simp [completeEndings]
  | cons t rest ih =>
    cases rest with
    | nil => simp [completeEndings]
    | cons t' rest' =>
      cases i with
      | zero =>
        simp only [completeEndings, List.getD_cons_zero]
        by_cases he : rhas t "end"
        · simp [he]
        · simp [he, rget_rset_ne _ _ _ _ hk, rhas_rset_ne _ _ _ _ hk]
      | succ j =>
        simp only [completeEndings, List.getD_cons_succ]
        exact ih j

theorem completeEndings_last (ts : List Record) :
    (completeEndings ts).getD (ts.length - 1) [] = ts.getD (ts.length - 1) [] := by
  induction ts with
  | nil => rfl
  | cons t rest ih =>
    cases rest with
    | nil => rfl
    | cons t' rest' =>
      have hl : (t :: t' :: rest').length - 1 = ((t' :: rest').length - 1) + 1 := by
        simp
      rw [hl]
      simp only [completeEndings, List.getD_cons_succ]
      exact ih

/-! Facts about the title pass `_get_unique_titles`. -/

theorem getUniqueTitlesAux_length (counts : Counts) (ts : List Record) :
    (getUniqueTitlesAux counts ts).length = ts.length := by
  induction ts generalizing counts with
  | nil => rfl
  | cons t rest ih =>
    simp only [getUniqueTitlesAux]
    by_cases hc : chas counts (rget t "title")
    · by_cases hp : rhas t "performer"
      · simp [hc, hp, ih]
      · simp [hc, hp, ih]
    · simp [hc, ih]

theorem getUniqueTitlesAux_preserve (counts : Counts) (ts : List Record) (i : Nat)
    (k : String) (hk : k ≠ "title") :
    rget ((getUniqueTitlesAux counts ts).getD i []) k = rget (ts.getD i []) k ∧
    rhas ((getUniqueTitlesAux counts ts).getD i []) k = rhas (ts.getD i []) k := by
  induction ts generalizing counts i with
  | nil => simp [getUniqueTitlesAux]
  | cons t rest ih =>
    simp only [getUniqueTitlesAux]
    by_cases hc : chas counts (rget t "title")
    · by_cases hp : rhas t "performer"
      · simp only [hc, hp, if_true]
        cases i with
        | zero =>
          simp [rget_rset_ne _ _ _ _ hk, rhas_rset_ne _ _ _ _ hk]
        | succ j => simpa using ih _ j
      · simp only [hc, hp, if_true, Bool.false_eq_true, if_false]
        cases i with
        | zero =>
          simp [rget_rset_ne _ _ _ _ hk, rhas_rset_ne _ _ _ _ hk]
        | succ j => simpa using ih _ j
    · simp only [hc, if_false]
      cases i with
      | zero => simp
      | succ j => simpa using ih _ j

/-- Every successful `parse` returns a post-processed state. -/
theorem parse_eq_postState (offset : String) (doc : List String) (st : CueState)
    (h : parse offset doc = some st) : ∃ st', st = postState st' := by
  unfold parse at h
  by_cases hl : (readline (parse_disc doc ⟨[], []⟩).2).1 = ""
  · simp only [hl, if_true] at h
    exact ⟨_, (Option.some.inj h).symm⟩
  · simp only [hl, if_false, Option.map_eq_some'] at h
    obtain ⟨a, _, ha⟩ := h
    exact ⟨a, ha.symm⟩

/-- Claim C1: after a parse invocation completes post-processing, every
track except the last has an `end` key; when the pre-post-processing track
(no pregap marker) had none, its `end` equals the following track's
`start`; the last track's `end` (hence also a single-track sheet's only
track) keeps exactly the presence and value the parsing phase gave it. -/
theorem claim1_end_inference (offset : String) (doc : List String) (st : CueState)
    (h : parse offset doc = some st) :
    ∃ ts : List Record,
      st.tracks = getUniqueTitlesAux [] (completeEndings ts) ∧
      st.tracks.length = ts.length ∧
      (∀ i, i + 1 < ts.length →
        rhas (st.tracks.getD i []) "end" = true ∧
        (rhas (ts.getD i []) "end" = false →
          rget (st.tracks.getD i []) "end" = rget (st.tracks.getD (i + 1) []) "start")) ∧
      rhas (st.tracks.getD (ts.length - 1) []) "end" = rhas (ts.getD (ts.length - 1) []) "end" ∧
      rget (st.tracks.getD (ts.length - 1) []) "end" = rget (ts.getD (ts.length - 1) []) "end" := by
  obtain ⟨st', rfl⟩ := parse_eq_postState offset doc st h
  refine ⟨st'.tracks, rfl, ?_, ?_, ?_, ?_⟩
  · show (getUniqueTitlesAux [] (completeEndings st'.tracks)).length = _
    rw [getUniqueTitlesAux_length, completeEndings_length]
  · intro i hi
    have hpres := getUniqueTitlesAux_preserve [] (completeEndings st'.tracks) i "end"
      (by decide)
    have hpres' := getUniqueTitlesAux_preserve [] (completeEndings st'.tracks) (i + 1) "start"
      (by decide)
    have hce := completeEndings_preserve st'.tracks (i + 1) "start" (by decide)
    constructor
    · show rhas ((getUniqueTitlesAux [] (completeEndings st'.tracks)).getD i []) "end" = true
      rw [hpres.2, completeEndings_hasEnd st'.tracks i hi]
    · intro hno
      show rget ((getUniqueTitlesAux [] (completeEndings st'.tracks)).getD i []) "end" = _
      rw [hpres.1, completeEndings_end_value st'.tracks i hi hno]
      show _ = rget ((getUniqueTitlesAux [] (completeEndings st'.tracks)).getD (i + 1) []) "start"
      rw [hpres'.1, hce.1]
  · show rhas ((getUniqueTitlesAux [] (completeEndings st'.tracks)).getD (st'.tracks.length - 1) []) "end" = _
    rw [(getUniqueTitlesAux_preserve [] (completeEndings st'.tracks) _ "end" (by decide)).2,
      completeEndings_last]
  · show rget ((getUniqueTitlesAux [] (completeEndings st'.tracks)).getD (st'.tracks.length - 1) []) "end" = _
    rw [(getUniqueTitlesAux_preserve [] (completeEndings st'.tracks) _ "end" (by decide)).1,
      completeEndings_last]

/-- Witness for C1 on a concrete two-track sheet. -/
theorem claim1_end_inference_witness :
    ∃ st : CueState, parse "00:00:00.00"
        ["FILE \"a.wav\" WAVE", "TRACK 01 AUDIO", "INDEX 01 00:00:00",
         "TRACK 02 AUDIO", "INDEX 01 00:01:00"] = some st ∧
      ∃ ts : List Record,
        st.tracks = getUniqueTitlesAux [] (completeEndings ts) ∧
        st.tracks.length = ts.length ∧
        (∀ i, i + 1 < ts.length →
          rhas (st.tracks.getD i []) "end" = true ∧
          (rhas (ts.getD i []) "end" = false →
            rget (st.tracks.getD i []) "end" = rget (st.tracks.getD (i + 1) []) "start")) ∧
        rhas (st.tracks.getD (ts.length - 1) []) "end" = rhas (ts.getD (ts.length - 1) []) "end" ∧
        rget (st.tracks.getD (ts.length - 1) []) "end" = rget (ts.getD (ts.length - 1) []) "end" := by
  refine ⟨⟨[("file", "a.wav")],
    [[("end", "00:00:01.000000"), ("start", "00:00:00.000000"), ("track", "01")],
     [("title", " (ver. 1)"), ("start", "00:00:01.000000"), ("track", "02")]]⟩, ?_, ?_⟩
  · decide
  · exact claim1_end_inference "00:00:00.00"
      ["FILE \"a.wav\" WAVE", "TRACK 01 AUDIO", "INDEX 01 00:00:00",
       "TRACK 02 AUDIO", "INDEX 01 00:01:00"] _ (by decide)

/-- Claim C2, counterexample: three tracks all titled `A` by performer `X`
are a sequence with a duplicate input title for which the pass emits the
final title `A (X ver.)` twice -- the claimed pairwise distinctness fails
(the performer branch bumps the rewritten title's count, not `A`'s). -/
theorem claim2_duplicate_titles_counterexample :
    (getUniqueTitlesAux []
        [[("title", "A"), ("performer", "X")],
         [("title", "A"), ("performer", "X")],
         [("title", "A"), ("performer", "X")]]).map (fun t => rget t "title") =
      ["A", "A (X ver.)", "A (X ver.)"] := by decide

/-- Claim C2, amended: the title pass is exactly the per-occurrence rewrite
`disambiguate` applied to each track's (title, optional performer) pair --
unseen titles are kept, seen ones get the performer or the counter suffix
-- but (as the counterexample shows) the resulting titles need not be
pairwise distinct. -/
theorem claim2_title_pass_characterization (counts : Counts) (ts : List Record) :
    (getUniqueTitlesAux counts ts).map (fun t => rget t "title") =
      disambiguate counts
        (ts.map (fun t => (rget t "title",
          if rhas t "performer" then some (rget t "performer") else none))) := by
  induction ts generalizing counts with
  | nil => rfl
  | cons t rest ih =>
    simp only [getUniqueTitlesAux, List.map_cons, disambiguate]
    by_cases hc : chas counts (rget t "title")
    · simp only [hc, if_true]
      by_cases hp : rhas t "performer"
      · simp only [hp, if_true, List.map_cons, rget_rset_self, ih]
      · simp only [Bool.not_eq_true] at hp
        simp only [hp, Bool.false_eq_true, if_false, List.map_cons, rget_rset_self, ih]
    · simp only [Bool.not_eq_true] at hc
      simp only [hc, Bool.false_eq_true, if_false, List.map_cons, ih]

/-! Characters produced by `fmtChars` are plain decimal digits; this keeps
the formatted timestamp inert under whitespace splitting and quote
stripping when it is substituted into a `START`/`END` tag line. -/

theorem digitVal?_digitChar (d : Nat) (h : d < 10) :
    digitVal? (Nat.digitChar d) = some d := by
  interval_cases d <;> decide

theorem pyIsSpace_digitChar (d : Nat) (h : d < 10) :
    pyIsSpace (Nat.digitChar d) = false := by
  interval_cases d <;> decide

theorem isQuoteChar_digitChar (d : Nat) (h : d < 10) :
    isQuoteChar (Nat.digitChar d) = false := by
  interval_cases d <;> decide

theorem fmtChars_eq (μ : Nat) :
    fmtChars μ =
      Nat.digitChar (μ / 3600000000 % 24 / 10) :: Nat.digitChar (μ / 3600000000 % 24 % 10) ::
      ':' :: Nat.digitChar (μ / 60000000 % 60 / 10) :: Nat.digitChar (μ / 60000000 % 60 % 10) ::
      ':' :: Nat.digitChar (μ / 1000000 % 60 / 10) :: Nat.digitChar (μ / 1000000 % 60 % 10) ::
      '.' :: Nat.digitChar (μ % 1000000 / 100000) :: Nat.digitChar (μ % 1000000 / 10000 % 10) ::
      Nat.digitChar (μ % 1000000 / 1000 % 10) :: Nat.digitChar (μ % 1000000 / 100 % 10) ::
      Nat.digitChar (μ % 1000000 / 10 % 10) :: [Nat.digitChar (μ % 1000000 % 10)] := by
  simp [fmtChars]

/-- A run of non-whitespace characters is the token `takeWhile` extracts
from `tok ++ ' ' ++ rest`. -/
theorem takeWhile_nonspace_append (tok rest : List Char)
    (htok : ∀ c ∈ tok, pyIsSpace c = false) :
    List.takeWhile (fun c => !pyIsSpace c) (tok ++ ' ' :: rest) = tok := by
  induction tok with
  | nil => rw [List.nil_append, List.takeWhile_cons_of_neg (by decide)]
  | cons c t ih =>
    rw [List.cons_append,
      List.takeWhile_cons_of_pos (by simp [htok c (List.mem_cons_self c t)]),
      ih (fun d hd => htok d (List.mem_cons_of_mem c hd))]

theorem dropWhile_nonspace_append (tok rest : List Char)
    (htok : ∀ c ∈ tok, pyIsSpace c = false) :
    List.dropWhile (fun c => !pyIsSpace c) (tok ++ ' ' :: rest) = ' ' :: rest := by
  induction tok with
  | nil => rw [List.nil_append, List.dropWhile_cons_of_neg (by decide)]
  | cons c t ih =>
    rw [List.cons_append,
      List.dropWhile_cons_of_pos (by simp [htok c (List.mem_cons_self c t)])]
    exact ih (fun d hd => htok d (List.mem_cons_of_mem c hd))

theorem dropWhile_ne_space_append (l rest : List Char) (h : ∀ c ∈ l, c ≠ ' ') :
    List.dropWhile (fun c => c ≠ ' ') (l ++ ' ' :: rest) = ' ' :: rest := by
  induction l with
  | nil => rw [List.nil_append, List.dropWhile_cons_of_neg (by simp)]
  | cons c t ih =>
    rw [List.cons_append,
      List.dropWhile_cons_of_pos (by simp [h c (List.mem_cons_self c t)]),
      ih (fun d hd => h d (List.mem_cons_of_mem c hd))]

/-- Splitting `tok ++ ' ' ++ rest` at the first whitespace run gives
exactly the token and the rest, when the token is a nonempty run of
non-whitespace and the rest is nonempty and starts with non-whitespace. -/
theorem pySplit1_token_space (tok rest : List Char)
    (htne : tok ≠ []) (htok : ∀ c ∈ tok, pyIsSpace c = false)
    (hrne : rest ≠ []) (hrhead : ∀ c, rest.head? = some c → pyIsSpace c = false) :
    pySplit1 (String.mk (tok ++ ' ' :: rest)) = [String.mk tok, String.mk rest] := by
  obtain ⟨c, t, rfl⟩ : ∃ c t, tok = c :: t := by
    cases tok with
    | nil => exact absurd rfl htne
    | cons c t => exact ⟨c, t, rfl⟩
  obtain ⟨rc, rt, rfl⟩ : ∃ rc rt, rest = rc :: rt := by
    cases rest with
    | nil => exact absurd rfl hrne
    | cons rc rt => exact ⟨rc, rt, rfl⟩
  have hc : pyIsSpace c = false := htok c (List.mem_cons_self c t)
  have hrc : pyIsSpace rc = false := hrhead rc rfl
  have e1 : List.dropWhile pyIsSpace (c :: (t ++ ' ' :: rc :: rt)) =
      c :: (t ++ ' ' :: rc :: rt) :=
    List.dropWhile_cons_of_neg (by simp [hc])
  have e2 := takeWhile_nonspace_append (c :: t) (rc :: rt) htok
  have e3 := dropWhile_nonspace_append (c :: t) (rc :: rt) htok
  rw [List.cons_append] at e2 e3
  have e4 : List.dropWhile pyIsSpace (' ' :: rc :: rt) = rc :: rt := by
    rw [List.dropWhile_cons_of_pos (by decide), List.dropWhile_cons_of_neg (by simp [hrc])]
  simp only [pySplit1, List.cons_append, e1, e2, e3, e4]

/-- `line.rpartition(' ')[0]` on `pre ++ ' ' ++ typ` with a space-free
tail `typ` recovers `pre`. -/
theorem rpartBefore_append (pre typ : List Char)
    (htyp : ∀ c ∈ typ, c ≠ ' ') :
    rpartBefore (String.mk (pre ++ ' ' :: typ)) = String.mk pre := by
  simp only [rpartBefore]
  have hrev : (pre ++ ' ' :: typ).reverse = typ.reverse ++ ' ' :: pre.reverse := by
    rw [List.reverse_append, List.reverse_cons, List.append_assoc]
    rfl
  have hdrop := dropWhile_ne_space_append typ.reverse pre.reverse
    (fun c hc => htyp c (List.mem_reverse.mp hc))
  rw [hrev, hdrop]
  simp

/-- Stripping touches nothing when both ends already fail the predicate. -/
theorem stripEnds_eq_self (p : Char → Bool) (l : List Char)
    (h1 : ∀ c, l.head? = some c → p c = false)
    (h2 : ∀ c, l.getLast? = some c → p c = false) :
    stripEnds p l = l := by
  unfold stripEnds
  have hd : List.dropWhile p l = l := by
    cases l with
    | nil => rfl
    | cons a t => exact List.dropWhile_cons_of_neg (by simp [h1 a rfl])
  rw [hd]
  have hr : List.dropWhile p l.reverse = l.reverse := by
    rcases hrev : l.reverse with _ | ⟨a, t⟩
    · rfl
    · have hl : l.getLast? = some a := by
        rw [← List.head?_reverse, hrev]
        rfl
      exact List.dropWhile_cons_of_neg (by simp [h2 a hl])
  rw [hr, List.reverse_reverse]

theorem fmtChars_head (μ : Nat) :
    (fmtChars μ).head? = some (Nat.digitChar (μ / 3600000000 % 24 / 10)) := by
  rw [fmtChars_eq]
  rfl

theorem fmtChars_getLast (μ : Nat) :
    (fmtChars μ).getLast? = some (Nat.digitChar (μ % 1000000 % 10)) := by
  rw [fmtChars_eq]
  simp

theorem fmtChars_ne_nil (μ : Nat) : fmtChars μ ≠ [] := by
  rw [fmtChars_eq]
  simp

/-- The formatted timestamp survives `str.strip(quotes)` unchanged: both
its first and last characters are decimal digits. -/
theorem stripQuotes_formatHMSF (μ : Nat) :
    stripQuotes (String.mk (fmtChars μ)) = formatHMSF μ := by
  unfold stripQuotes formatHMSF
  rw [stripEnds_eq_self]
  · intro c hc
    rw [fmtChars_head μ] at hc
    cases hc
    exact isQuoteChar_digitChar _ (by omega)
  · intro c hc
    rw [fmtChars_getLast μ] at hc
    cases hc
    exact isQuoteChar_digitChar _ (by omega)

/-- `_parse_tag(target, f'START {timestamp}')` always succeeds and stores
the formatted timestamp, unstripped, under `start`. -/
theorem parse_tag_START (μ : Nat) (r : Record) :
    parse_tag ("START " ++ formatHMSF μ) r = (true, rset r "start" (formatHMSF μ)) := by
  have hstr : ("START " ++ formatHMSF μ) = String.mk ("START".data ++ ' ' :: fmtChars μ) := by
    apply String.ext
    rw [String.data_append]
    show "START ".data ++ fmtChars μ = _
    rw [show "START ".data = "START".data ++ [' '] from by decide, List.append_assoc]
    rfl
  have hsplit : pySplit1 ("START " ++ formatHMSF μ) =
      [String.mk "START".data, String.mk (fmtChars μ)] := by
    rw [hstr]
    apply pySplit1_token_space
    · decide
    · decide
    · exact fmtChars_ne_nil μ
    · intro c hc
      rw [fmtChars_head μ] at hc
      cases hc
      exact pyIsSpace_digitChar _ (by omega)
  rw [parse_tag, hsplit]
  show (true, rset r (asciiLower (String.mk "START".data)) (stripQuotes (String.mk (fmtChars μ)))) = _
  rw [show asciiLower (String.mk "START".data) = "start" from by decide,
    stripQuotes_formatHMSF]

/-- `_parse_tag(target, f'END {timestamp}')` always succeeds and stores
the formatted timestamp under `end`. -/
theorem parse_tag_END (μ : Nat) (r : Record) :
    parse_tag ("END " ++ formatHMSF μ) r = (true, rset r "end" (formatHMSF μ)) := by
  have hstr : ("END " ++ formatHMSF μ) = String.mk ("END".data ++ ' ' :: fmtChars μ) := by
    apply String.ext
    rw [String.data_append]
    show "END ".data ++ fmtChars μ = _
    rw [show "END ".data = "END".data ++ [' '] from by decide, List.append_assoc]
    rfl
  have hsplit : pySplit1 ("END " ++ formatHMSF μ) =
      [String.mk "END".data, String.mk (fmtChars μ)] := by
    rw [hstr]
    apply pySplit1_token_space
    · decide
    · decide
    · exact fmtChars_ne_nil μ
    · intro c hc
      rw [fmtChars_head μ] at hc
      cases hc
      exact pyIsSpace_digitChar _ (by omega)
  rw [parse_tag, hsplit]
  show (true, rset r (asciiLower (String.mk "END".data)) (stripQuotes (String.mk (fmtChars μ)))) = _
  rw [show asciiLower (String.mk "END".data) = "end" from by decide,
    stripQuotes_formatHMSF]

/-- Unfolding `convert_timestamp` on successfully parsed inputs. -/
theorem convert_timestamp_eq (ts offset : String) (tv ov : Nat)
    (htv : pMSF ts = some tv) (hov : pHMSF offset = some ov) :
    convert_timestamp ts offset = some (formatHMSF (tv + ov)) := by
  unfold convert_timestamp
  rw [htv, hov]

/-- Claim C6, counterexample: with one `INDEX 01 00:00:00` line the track's
`start` is `00:00:00.000000`; appending a second primary index
`INDEX 01 00:02:00` to the very same sheet leaves the final `start` at
`00:00:02.000000` -- the later directive overwrote the already-set
`start`, contradicting "assigned exactly once … never overwrites". -/
theorem claim6_start_overwrite_counterexample :
    (parse "00:00:00.00"
        ["FILE a.wav WAVE", "TRACK 01 AUDIO", "INDEX 01 00:00:00"]).map
        (fun st => st.tracks.map (fun t => rget t "start")) = some ["00:00:00.000000"] ∧
    (parse "00:00:00.00"
        ["FILE a.wav WAVE", "TRACK 01 AUDIO", "INDEX 01 00:00:00",
         "INDEX 01 00:02:00"]).map
        (fun st => st.tracks.map (fun t => rget t "start")) = some ["00:00:02.000000"] := by
  constructor
  · decide
  · decide

/-- Claim C6, amended: every `INDEX 01` line with a well-formed timestamp
assigns the current (last) track's `start` unconditionally -- whatever
`start` the track already carried (from an earlier `INDEX 01` or a generic
`START` directive) is shadowed, and reading `start` afterwards yields the
new value.  The final `start` is therefore the one of the last such
directive, not of the first. -/
theorem claim6_start_assignment_behavior (offset line ts : String) (tv ov : Nat)
    (st : CueState) (ts₀ : List Record) (tr : Record)
    (hsplit : pySplit2 line = ["INDEX", "01", ts])
    (htv : pMSF ts = some tv) (hov : pHMSF offset = some ov)
    (htr : st.tracks = ts₀ ++ [tr]) :
    handle_track_line offset line st =
      some ⟨st.disc, ts₀ ++ [rset tr "start" (formatHMSF (tv + ov))]⟩ ∧
    rget (rset tr "start" (formatHMSF (tv + ov))) "start" = formatHMSF (tv + ov) := by
  have hidx : parse_index_tag offset line st =
      some (true, ⟨st.disc, ts₀ ++ [rset tr "start" (formatHMSF (tv + ov))]⟩) := by
    unfold parse_index_tag
    simp only [hsplit]
    rw [convert_timestamp_eq ts offset tv ov htv hov]
    simp only [if_pos rfl, htr, List.reverse_append, List.reverse_cons, List.reverse_nil,
      List.nil_append, List.cons_append, parse_tag_START, List.reverse_reverse]
    simp
  refine ⟨?_, rget_rset_self _ _ _⟩
  unfold handle_track_line
  rw [hidx]

/-- Witness for the amended C6 at a concrete overwrite. -/
theorem claim6_start_assignment_behavior_witness :
    handle_track_line "00:00:00.00" "INDEX 01 00:02:00"
        ⟨[], [[("start", "00:00:00.000000"), ("track", "01")]]⟩ =
      some ⟨[], [rset [("start", "00:00:00.000000"), ("track", "01")] "start"
        (formatHMSF (2000000 + 0))]⟩ ∧
    rget (rset [("start", "00:00:00.000000"), ("track", "01")] "start"
        (formatHMSF (2000000 + 0))) "start" = formatHMSF (2000000 + 0) :=
  claim6_start_assignment_behavior "00:00:00.00" "INDEX 01 00:02:00" "00:02:00" 2000000 0
    ⟨[], [[("start", "00:00:00.000000"), ("track", "01")]]⟩ []
    [("start", "00:00:00.000000"), ("track", "01")]
    (by decide) (by decide) (by decide) rfl

/-- One step of the non-primary index rule: with at least two tracks, a
non-`01` `INDEX` line writes the converted timestamp as `end` on the
second-to-last track, whatever that track already holds. -/
theorem index_end_step (offset line ts n : String) (tv ov : Nat)
    (st : CueState) (ts₀ : List Record) (t₂ t₁ : Record)
    (hsplit : pySplit2 line = ["INDEX", n, ts]) (hn : n ≠ "01")
    (htv : pMSF ts = some tv) (hov : pHMSF offset = some ov)
    (htr : st.tracks = ts₀ ++ [t₂, t₁]) :
    handle_track_line offset line st =
      some ⟨st.disc, ts₀ ++ [rset t₂ "end" (formatHMSF (tv + ov)), t₁]⟩ := by
  have hidx : parse_index_tag offset line st =
      some (true, ⟨st.disc, ts₀ ++ [rset t₂ "end" (formatHMSF (tv + ov)), t₁]⟩) := by
    unfold parse_index_tag
    simp only [hsplit]
    rw [convert_timestamp_eq ts offset tv ov htv hov]
    simp only [if_pos rfl, if_neg hn, htr, List.reverse_append, List.reverse_cons,
      List.reverse_nil, List.nil_append, List.cons_append, parse_tag_END,
      List.reverse_reverse, List.length_append, List.length_cons, List.length_nil]
    simp
  unfold handle_track_line
  rw [hidx]

/-- Claim C10: a non-`01` `INDEX` line parsed with at least two tracks
unconditionally assigns the second-to-last track's `end` (shadowing any
earlier value, as the read-back shows), and running a second such line
right after leaves that track's `end` at the second line's timestamp --
the last such marker wins. -/
theorem claim10_nonprimary_index_overwrites (offset line ts n : String) (tv ov : Nat)
    (st : CueState) (ts₀ : List Record) (t₂ t₁ : Record)
    (hsplit : pySplit2 line = ["INDEX", n, ts]) (hn : n ≠ "01")
    (htv : pMSF ts = some tv) (hov : pHMSF offset = some ov)
    (htr : st.tracks = ts₀ ++ [t₂, t₁]) :
    handle_track_line offset line st =
      some ⟨st.disc, ts₀ ++ [rset t₂ "end" (formatHMSF (tv + ov)), t₁]⟩ ∧
    rget (rset t₂ "end" (formatHMSF (tv + ov))) "end" = formatHMSF (tv + ov) ∧
    (∀ (line₂ ts₂ n₂ : String) (tv₂ : Nat),
      pySplit2 line₂ = ["INDEX", n₂, ts₂] → n₂ ≠ "01" → pMSF ts₂ = some tv₂ →
      handle_track_line offset line₂
          ⟨st.disc, ts₀ ++ [rset t₂ "end" (formatHMSF (tv + ov)), t₁]⟩ =
        some ⟨st.disc, ts₀ ++
          [rset (rset t₂ "end" (formatHMSF (tv + ov))) "end" (formatHMSF (tv₂ + ov)), t₁]⟩ ∧
      rget (rset (rset t₂ "end" (formatHMSF (tv + ov))) "end" (formatHMSF (tv₂ + ov))) "end" =
        formatHMSF (tv₂ + ov)) := by
  refine ⟨index_end_step offset line ts n tv ov st ts₀ t₂ t₁ hsplit hn htv hov htr,
    rget_rset_self _ _ _, ?_⟩
  intro line₂ ts₂ n₂ tv₂ hsplit₂ hn₂ htv₂
  exact ⟨index_end_step offset line₂ ts₂ n₂ tv₂ ov _ ts₀ _ t₁ hsplit₂ hn₂ htv₂ hov rfl,
    rget_rset_self _ _ _⟩

/-- Witness for C10: the pregap of the spec scenario, overwritten by a
later `INDEX 02`. -/
theorem claim10_nonprimary_index_overwrites_witness :
    handle_track_line "00:00:00.00" "INDEX 00 03:15:00"
        ⟨[], [[("track", "01")], [("track", "02")]]⟩ =
      some ⟨[], [rset [("track", "01")] "end" (formatHMSF (195000000 + 0)), [("track", "02")]]⟩ ∧
    rget (rset [("track", "01")] "end" (formatHMSF (195000000 + 0))) "end" =
      formatHMSF (195000000 + 0) ∧
    (∀ (line₂ ts₂ n₂ : String) (tv₂ : Nat),
      pySplit2 line₂ = ["INDEX", n₂, ts₂] → n₂ ≠ "01" → pMSF ts₂ = some tv₂ →
      handle_track_line "00:00:00.00" line₂
          ⟨[], [rset [("track", "01")] "end" (formatHMSF (195000000 + 0)), [("track", "02")]]⟩ =
        some ⟨[], [rset (rset [("track", "01")] "end" (formatHMSF (195000000 + 0))) "end"
          (formatHMSF (tv₂ + 0)), [("track", "02")]]⟩ ∧
      rget (rset (rset [("track", "01")] "end" (formatHMSF (195000000 + 0))) "end"
          (formatHMSF (tv₂ + 0))) "end" = formatHMSF (tv₂ + 0)) :=
  claim10_nonprimary_index_overwrites "00:00:00.00" "INDEX 00 03:15:00" "03:15:00" "00"
    195000000 0 ⟨[], [[("track", "01")], [("track", "02")]]⟩ [] [("track", "01")]
    [("track", "02")] (by decide) (by decide) (by decide) (by decide) rfl

/-- Claim C3, counterexample: an `INDEX 00` directive with only one track
is not "dropped with no observable effect" -- parsing completes, but the
line has fallen through to the generic rule and stored the key `index`
with value `00 00:03:00` on the current track. -/
theorem claim3_index_fallthrough_counterexample :
    (parse "00:00:00.00"
        ["FILE a.wav WAVE", "TRACK 01 AUDIO", "INDEX 00 00:03:00"]).map
        (fun st => st.tracks.map (fun t => (rhas t "index", rget t "index"))) =
      some [(true, "00 00:03:00")] := by decide

/-- Claim C3, amended: a non-`01` `INDEX` line with a well-formed
timestamp seen with no track at all raises (IndexError), and seen with
exactly one track it is not applied as an index but falls through to the
generic rule, storing the quote-stripped remainder of the line under the
key `index` on that track. -/
theorem claim3_nonprimary_index_behavior (offset line ts n : String) (tv ov : Nat)
    (hsplit : pySplit2 line = ["INDEX", n, ts]) (hn : n ≠ "01")
    (htv : pMSF ts = some tv) (hov : pHMSF offset = some ov) :
    (∀ d : Record, handle_track_line offset line ⟨d, []⟩ = none) ∧
    (∀ (d t : Record) (r : String), pySplit1 line = ["INDEX", r] →
      handle_track_line offset line ⟨d, [t]⟩ =
        some ⟨d, [rset t "index" (stripQuotes r)]⟩) := by
  constructor
  · intro d
    have hidx : parse_index_tag offset line ⟨d, []⟩ = some (false, ⟨d, []⟩) := by
      unfold parse_index_tag
      simp only [hsplit]
      rw [convert_timestamp_eq ts offset tv ov htv hov]
      simp [hn]
    unfold handle_track_line
    rw [hidx]
    rfl
  · intro d t r hsplit1
    have hidx : parse_index_tag offset line ⟨d, [t]⟩ = some (false, ⟨d, [t]⟩) := by
      unfold parse_index_tag
      simp only [hsplit]
      rw [convert_timestamp_eq ts offset tv ov htv hov]
      simp [hn]
    unfold handle_track_line
    rw [hidx]
    have hcom : parse_comment_tag line t = (false, t) := by
      unfold parse_comment_tag
      simp only [hsplit]
      rw [if_neg (by decide)]
    have hgen : parse_tag line t = (true, rset t "index" (stripQuotes r)) := by
      unfold parse_tag
      rw [hsplit1]
      show (true, rset t (asciiLower "INDEX") (stripQuotes r)) = _
      rw [show asciiLower "INDEX" = "index" from by decide]
    simp only [List.reverse_cons, List.reverse_nil, List.nil_append, hcom, hgen]
    simp

/-- Witness for the amended C3 at the concrete `INDEX 00` line. -/
theorem claim3_nonprimary_index_behavior_witness :
    (∀ d : Record, handle_track_line "00:00:00.00" "INDEX 00 00:03:00" ⟨d, []⟩ = none) ∧
    (∀ (d t : Record) (r : String), pySplit1 "INDEX 00 00:03:00" = ["INDEX", r] →
      handle_track_line "00:00:00.00" "INDEX 00 00:03:00" ⟨d, [t]⟩ =
        some ⟨d, [rset t "index" (stripQuotes r)]⟩) :=
  claim3_nonprimary_index_behavior "00:00:00.00" "INDEX 00 00:03:00" "00:03:00" "00"
    3000000 0 (by decide) (by decide) (by decide) (by decide)

/-- Claim C4, counterexample: the line `FILE abc` begins with `FILE`
followed by one more token, yet the file tag does not fire: the value
stored under `file` is the whole remainder `abc` (via the generic rule,
not the empty everything-before-the-last-token), and disc-scope parsing
does not terminate -- the following `REM FOO bar` line still lands in the
disc record (had track scope begun, that line would have been dropped). -/
theorem claim4_file_tag_counterexample :
    (parse "00:00:00.00" ["FILE abc", "REM FOO bar"]).map
        (fun st => (rget st.disc "file", rget st.disc "foo", st.tracks.length)) =
      some ("abc", "bar", 0) := by decide

/-- Claim C4, amended: a `FILE` line fires the file tag when the last
token is preceded by a literal space, i.e. on lines
`FILE <value> <type>` (`<value>` nonempty and not starting with
whitespace, `<type>` nonempty and whitespace-free): the disc record gets
`file = <value>` quote-stripped, and the line ends disc-scope parsing,
leaving the remaining lines untouched for track scope. -/
theorem claim4_file_tag_behavior (name typ : String)
    (hne : name.data ≠ [])
    (hhead : ∀ c, name.data.head? = some c → pyIsSpace c = false)
    (htne : typ.data ≠ [])
    (htyp : ∀ c ∈ typ.data, pyIsSpace c = false) :
    ∀ (d : Record) (tks : List Record) (rest : List String),
      parse_disc (String.mk ("FILE".data ++ ' ' :: (name.data ++ ' ' :: typ.data)) :: rest)
          ⟨d, tks⟩ =
        (⟨rset d "file" (stripQuotes name), tks⟩, rest) := by
  intro d tks rest
  have hLne : ("FILE".data ++ ' ' :: (name.data ++ ' ' :: typ.data)) ≠ [] := by simp
  have hmidne : name.data ++ ' ' :: typ.data ≠ [] := by simp
  have hmidhead : ∀ c, (name.data ++ ' ' :: typ.data).head? = some c → pyIsSpace c = false := by
    intro c hc
    obtain ⟨nc, nt, hn⟩ : ∃ nc nt, name.data = nc :: nt := by
      cases hx : name.data with
      | nil => exact absurd hx hne
      | cons nc nt => exact ⟨nc, nt, rfl⟩
    rw [hn] at hc
    simp only [List.cons_append, List.head?_cons, Option.some.injEq] at hc
    rw [← hc]
    exact hhead nc (by rw [hn]; rfl)
  have hstrip : pyStrip (String.mk ("FILE".data ++ ' ' :: (name.data ++ ' ' :: typ.data))) =
      String.mk ("FILE".data ++ ' ' :: (name.data ++ ' ' :: typ.data)) := by
    unfold pyStrip
    rw [stripEnds_eq_self]
    · intro c hc
      simp only [List.cons_append, List.head?_cons] at hc
      cases hc
      decide
    · intro c hc
      have hlast : ("FILE".data ++ ' ' :: (name.data ++ ' ' :: typ.data)).getLast? =
          typ.data.getLast? := by
        obtain ⟨tc, hc'⟩ : ∃ tc, typ.data.getLast? = some tc := by
          cases hx : typ.data with
          | nil => exact absurd hx htne
          | cons a t =>
            cases hy : (a :: t).getLast? with
            | none => simp at hy
            | some tc => exact ⟨tc, rfl⟩
        have he2 : "FILE".data ++ ' ' :: (name.data ++ ' ' :: typ.data) =
            ("FILE".data ++ ' ' :: name.data ++ [' ']) ++ typ.data := by simp
        rw [he2, List.getLast?_append, hc']
        rfl
      rw [hlast] at hc
      exact htyp c (List.mem_of_getLast?_eq_some hc)
  have hsplit1 : pySplit1 (String.mk ("FILE".data ++ ' ' :: (name.data ++ ' ' :: typ.data))) =
      [String.mk "FILE".data, String.mk (name.data ++ ' ' :: typ.data)] :=
    pySplit1_token_space "FILE".data (name.data ++ ' ' :: typ.data) (by decide) (by decide)
      hmidne hmidhead
  have hrpart : rpartBefore (String.mk ("FILE".data ++ ' ' :: (name.data ++ ' ' :: typ.data))) =
      String.mk ("FILE".data ++ ' ' :: name.data) := by
    have he : ("FILE".data ++ ' ' :: (name.data ++ ' ' :: typ.data)) =
        ("FILE".data ++ ' ' :: name.data) ++ ' ' :: typ.data := by
      simp
    rw [he, rpartBefore_append]
    intro c hc h
    subst h
    have := htyp ' ' hc
    simp [pyIsSpace] at this
  have htag : parse_tag (String.mk ("FILE".data ++ ' ' :: name.data)) d =
      (true, rset d "file" (stripQuotes name)) := by
    unfold parse_tag
    rw [pySplit1_token_space "FILE".data name.data (by decide) (by decide) hne hhead]
    show (true, rset d (asciiLower (String.mk "FILE".data))
      (stripQuotes (String.mk name.data))) = _
    rw [show asciiLower (String.mk "FILE".data) = "file" from by decide]
  have hsplit1' : pySplit1 (String.mk ("FILE".data ++ ' ' :: (name.data ++ ' ' :: typ.data))) =
      ["FILE", String.mk (name.data ++ ' ' :: typ.data)] := hsplit1
  have hfile : parse_file_tag (String.mk ("FILE".data ++ ' ' :: (name.data ++ ' ' :: typ.data)))
      ⟨d, tks⟩ = (true, ⟨rset d "file" (stripQuotes name), tks⟩) := by
    unfold parse_file_tag
    simp only [hsplit1']
    simp only [hrpart, htag]
    simp
  unfold parse_disc
  rw [hstrip]
  rw [if_neg (by simp [String.ext_iff])]
  rw [hfile]
  rfl

/-- Witness for the amended C4 on `FILE x.wav WAVE`. -/
theorem claim4_file_tag_behavior_witness :
    parse_disc (String.mk ("FILE".data ++ ' ' :: ("x.wav".data ++ ' ' :: "WAVE".data)) ::
        ["TRACK 01 AUDIO"]) ⟨[], []⟩ =
      (⟨rset [] "file" (stripQuotes "x.wav"), []⟩, ["TRACK 01 AUDIO"]) :=
  claim4_file_tag_behavior "x.wav" "WAVE" (by decide)
    (by
      intro c hc
      injection hc with h
      rw [← h]
      decide)
    (by decide) (by decide) [] [] ["TRACK 01 AUDIO"]

/-- A line that does not split as a three-token `TRACK` directive leaves
the state unchanged and reports `False`. -/
theorem parse_track_tag_no (line : String) (st : CueState)
    (hnt : ∀ a b, pySplit2 line ≠ ["TRACK", a, b]) :
    parse_track_tag line st = (false, st) := by
  unfold parse_track_tag
  rcases hsp : pySplit2 line with _ | ⟨w, _ | ⟨k, _ | ⟨v, _ | ⟨u, rest₄⟩⟩⟩⟩
  · rfl
  · rfl
  · rfl
  · by_cases hw : w = "TRACK"
    · exact absurd (by rw [hsp, hw]) (hnt k v)
    · simp [hw]
  · rfl

/-- A line that does not split as a three-token `INDEX` directive makes
`_parse_index_tag` report `False` without touching the state (and without
any timestamp conversion). -/
theorem parse_index_tag_no (offset line : String) (st : CueState)
    (hni : ∀ a b, pySplit2 line ≠ ["INDEX", a, b]) :
    parse_index_tag offset line st = some (false, st) := by
  unfold parse_index_tag
  rcases hsp : pySplit2 line with _ | ⟨w, _ | ⟨k, _ | ⟨v, _ | ⟨u, rest₄⟩⟩⟩⟩
  · rfl
  · rfl
  · rfl
  · by_cases hw : w = "INDEX"
    · exact absurd (by rw [hsp, hw]) (hni k v)
    · simp [hw]
  · rfl

/-- Claim C5, counterexample: a `REM DATE 1999` line right after the
`FILE` tag is not applied to the disc record (the key `date` is absent and
reads as `""`), and with one more pre-`TRACK` line (`TITLE X`) parsing
does not complete normally at all -- it raises IndexError (`none`). -/
theorem claim5_pretrack_directive_counterexample :
    (parse "00:00:00.00" ["FILE a.wav WAVE", "REM DATE 1999"]).map
        (fun st => (rhas st.disc "date", rget st.disc "date", st.tracks.length)) =
      some (false, "", 0) ∧
    parse "00:00:00.00" ["FILE a.wav WAVE", "REM DATE 1999", "TITLE X"] = none := by
  exact ⟨by decide, by decide⟩

/-- Claim C5, amended: the first line read after the `FILE` tag is only
offered to the track-tag rule; when it is not a three-token `TRACK` line
it is silently discarded (parsing continues on the remaining lines with
the state produced by the disc phase, the dropped directive reaching no
record), and if the next line is again neither a `TRACK` nor an `INDEX`
three-token directive while no track exists yet, the whole parse raises
IndexError. -/
theorem claim5_pretrack_directive_behavior (offset : String)
    (doc doc₁ doc₂ : List String) (st₁ : CueState) (x : String)
    (h₁ : parse_disc doc ⟨[], []⟩ = (st₁, doc₁))
    (h₂ : readline doc₁ = (x, doc₂))
    (hx : x ≠ "")
    (hnt : ∀ a b, pySplit2 x ≠ ["TRACK", a, b]) :
    parse offset doc = (parse_tracks offset doc₂ st₁).map postState ∧
    (∀ (y : String) (doc₃ : List String),
      readline doc₂ = (y, doc₃) → y ≠ "" →
      (∀ a b, pySplit2 y ≠ ["TRACK", a, b]) →
      (∀ a b, pySplit2 y ≠ ["INDEX", a, b]) →
      st₁.tracks = [] →
      parse offset doc = none) := by
  have hmain : parse offset doc = (parse_tracks offset doc₂ st₁).map postState := by
    unfold parse
    simp only [h₁, h₂]
    rw [parse_track_tag_no x st₁ hnt]
    simp only [if_neg hx]
  refine ⟨hmain, ?_⟩
  intro y doc₃ hy₂ hy hnty hniy htracks
  rw [hmain]
  obtain ⟨l, rfl, hl⟩ : ∃ l, doc₂ = l :: doc₃ ∧ pyStrip l = y := by
    cases doc₂ with
    | nil =>
      exfalso
      apply hy
      have : ("", ([] : List String)) = (y, doc₃) := hy₂
      exact (Prod.mk.injEq _ _ _ _ ▸ this).1.symm
    | cons l ls =>
      have : (pyStrip l, ls) = (y, doc₃) := hy₂
      obtain ⟨hl, hd⟩ := Prod.mk.injEq _ _ _ _ ▸ this
      exact ⟨l, by rw [hd], hl⟩
  have hhandle : handle_track_line offset y st₁ = none := by
    unfold handle_track_line
    rw [parse_index_tag_no offset y st₁ hniy]
    simp only [htracks, List.reverse_nil]
  have : parse_tracks offset (l :: doc₃) st₁ = none := by
    unfold parse_tracks
    rw [hl]
    rw [if_neg hy]
    rw [parse_track_tag_no y st₁ hnty]
    simp only [Bool.false_eq_true, if_false, hhandle]
  rw [this]
  rfl

/-- Witness for the amended C5 on a concrete sheet. -/
theorem claim5_pretrack_directive_behavior_witness :
    parse "00:00:00.00" ["FILE a.wav WAVE", "REM DATE 1999", "TITLE X"] =
      (parse_tracks "00:00:00.00" ["TITLE X"] ⟨[("file", "a.wav")], []⟩).map postState ∧
    (∀ (y : String) (doc₃ : List String),
      readline ["TITLE X"] = (y, doc₃) → y ≠ "" →
      (∀ a b, pySplit2 y ≠ ["TRACK", a, b]) →
      (∀ a b, pySplit2 y ≠ ["INDEX", a, b]) →
      ([] : List Record) = [] →
      parse "00:00:00.00" ["FILE a.wav WAVE", "REM DATE 1999", "TITLE X"] = none) :=
  claim5_pretrack_directive_behavior "00:00:00.00"
    ["FILE a.wav WAVE", "REM DATE 1999", "TITLE X"] ["REM DATE 1999", "TITLE X"]
    ["TITLE X"] ⟨[("file", "a.wav")], []⟩ "REM DATE 1999"
    (by decide) (by decide) (by decide)
    (by
      intro a b h
      rw [show pySplit2 "REM DATE 1999" = ["REM", "DATE", "1999"] from by decide] at h
      simp at h)

/-! Round trip: the `strftime('%H:%M:%S.%f')` output parses back under
`'%H:%M:%S.%f'` to the same microsecond count (absent day overflow). -/

theorem parseHfield_digits (h : Nat) (rest : List Char) (hh : h < 24) :
    parseHfield (Nat.digitChar (h / 10) :: Nat.digitChar (h % 10) :: rest) = some (h, rest) := by
  simp only [parseHfield, digitVal?_digitChar (h / 10) (by omega),
    digitVal?_digitChar (h % 10) (by omega)]
  rw [if_pos (by omega)]
  rw [show h / 10 * 10 + h % 10 = h from by omega]

theorem parseMfield_digits (m : Nat) (rest : List Char) (hm : m < 60) :
    parseMfield (Nat.digitChar (m / 10) :: Nat.digitChar (m % 10) :: rest) = some (m, rest) := by
  simp only [parseMfield, digitVal?_digitChar (m / 10) (by omega),
    digitVal?_digitChar (m % 10) (by omega)]
  rw [if_pos (by omega)]
  rw [show m / 10 * 10 + m % 10 = m from by omega]

theorem parseSfield_digits (s : Nat) (rest : List Char) (hs : s < 60) :
    parseSfield (Nat.digitChar (s / 10) :: Nat.digitChar (s % 10) :: rest) = some (s, rest) := by
  simp only [parseSfield, digitVal?_digitChar (s / 10) (by omega),
    digitVal?_digitChar (s % 10) (by omega)]
  rw [if_pos (by omega)]
  rw [show s / 10 * 10 + s % 10 = s from by omega]

theorem parseFfield_digits (f : Nat) (hf : f < 1000000) :
    parseFfield [Nat.digitChar (f / 100000), Nat.digitChar (f / 10000 % 10),
      Nat.digitChar (f / 1000 % 10), Nat.digitChar (f / 100 % 10),
      Nat.digitChar (f / 10 % 10), Nat.digitChar (f % 10)] = some f := by
  have hsome : ∀ d : Nat, d < 10 → (digitVal? (Nat.digitChar d)).isSome = true := by
    intro d hd
    rw [digitVal?_digitChar d hd]
    rfl
  have hget : ∀ d : Nat, d < 10 → (digitVal? (Nat.digitChar d)).getD 0 = d := by
    intro d hd
    rw [digitVal?_digitChar d hd]
    rfl
  simp only [parseFfield, List.takeWhile_cons, List.dropWhile_cons,
    hsome (f / 100000) (by omega), hsome (f / 10000 % 10) (by omega),
    hsome (f / 1000 % 10) (by omega), hsome (f / 100 % 10) (by omega),
    hsome (f / 10 % 10) (by omega), hsome (f % 10) (by omega),
    if_true, List.takeWhile_nil, List.dropWhile_nil]
  rw [if_neg (by simp)]
  simp only [List.foldl_cons, List.foldl_nil,
    hget (f / 100000) (by omega), hget (f / 10000 % 10) (by omega),
    hget (f / 1000 % 10) (by omega), hget (f / 100 % 10) (by omega),
    hget (f / 10 % 10) (by omega), hget (f % 10) (by omega)]
  simp only [List.length_cons, List.length_nil]
  rw [show (6 : Nat) - 6 = 0 from rfl, pow_zero, Nat.mul_one]
  refine congrArg some ?_
  omega

/-- Parsing the `strftime('%H:%M:%S.%f')` output back as `'%H:%M:%S.%f'`
recovers the microsecond count when no day overflow occurred. -/
theorem pHMSF_formatHMSF (μ : Nat) (hμ : μ < 86400000000) :
    pHMSF (formatHMSF μ) = some μ := by
  have e1 := parseHfield_digits (μ / 3600000000 % 24)
    (':' :: Nat.digitChar (μ / 60000000 % 60 / 10) :: Nat.digitChar (μ / 60000000 % 60 % 10) ::
     ':' :: Nat.digitChar (μ / 1000000 % 60 / 10) :: Nat.digitChar (μ / 1000000 % 60 % 10) ::
     '.' :: Nat.digitChar (μ % 1000000 / 100000) :: Nat.digitChar (μ % 1000000 / 10000 % 10) ::
     Nat.digitChar (μ % 1000000 / 1000 % 10) :: Nat.digitChar (μ % 1000000 / 100 % 10) ::
     Nat.digitChar (μ % 1000000 / 10 % 10) :: [Nat.digitChar (μ % 1000000 % 10)])
    (by omega)
  have e2 := parseMfield_digits (μ / 60000000 % 60)
    (':' :: Nat.digitChar (μ / 1000000 % 60 / 10) :: Nat.digitChar (μ / 1000000 % 60 % 10) ::
     '.' :: Nat.digitChar (μ % 1000000 / 100000) :: Nat.digitChar (μ % 1000000 / 10000 % 10) ::
     Nat.digitChar (μ % 1000000 / 1000 % 10) :: Nat.digitChar (μ % 1000000 / 100 % 10) ::
     Nat.digitChar (μ % 1000000 / 10 % 10) :: [Nat.digitChar (μ % 1000000 % 10)])
    (by omega)
  have e3 := parseSfield_digits (μ / 1000000 % 60)
    ('.' :: Nat.digitChar (μ % 1000000 / 100000) :: Nat.digitChar (μ % 1000000 / 10000 % 10) ::
     Nat.digitChar (μ % 1000000 / 1000 % 10) :: Nat.digitChar (μ % 1000000 / 100 % 10) ::
     Nat.digitChar (μ % 1000000 / 10 % 10) :: [Nat.digitChar (μ % 1000000 % 10)])
    (by omega)
  have e4 := parseFfield_digits (μ % 1000000) (by omega)
  simp only [pHMSF, formatHMSF, fmtChars_eq, e1, e2, e3, e4]
  rw [if_pos (by omega)]
  refine congrArg some ?_
  omega

/-- Claim C7, counterexample: with `t = "59:00:00"` and the accepted
offsets `o₁ = "00:00:00.00" < o₂ = "23:30:00.00"`, the sum crosses the
24-hour day boundary, the formatted hour wraps, and the normalized output
for `(t, o₂)` is `00:29:00` -- smaller than the `00:59:00` of `(t, o₁)`
rather than exceeding it by `o₂ - o₁`. -/
theorem claim7_offset_wraparound_counterexample :
    pHMSF "00:00:00.00" = some 0 ∧
    pHMSF "23:30:00.00" = some 84600000000 ∧
    convert_timestamp "59:00:00" "00:00:00.00" = some "00:59:00.000000" ∧
    convert_timestamp "59:00:00" "23:30:00.00" = some "00:29:00.000000" ∧
    pHMSF "00:59:00.000000" = some 3540000000 ∧
    pHMSF "00:29:00.000000" = some 1740000000 ∧
    ¬(1740000000 = 3540000000 + (84600000000 - 0)) := by decide

/-- Claim C7, amended: for a timestamp `t` and accepted offsets
`o₁ < o₂`, provided the larger sum stays below 24 hours (no day
wrap-around), the normalized outputs parse back to values differing by
exactly `o₂ - o₁`. -/
theorem claim7_offset_monotonic (t o₁ o₂ : String) (tv v₁ v₂ : Nat)
    (ht : pMSF t = some tv) (h₁ : pHMSF o₁ = some v₁) (h₂ : pHMSF o₂ = some v₂)
    (hlt : v₁ < v₂) (hbound : tv + v₂ < 86400000000) :
    ∃ s₁ s₂ : String, convert_timestamp t o₁ = some s₁ ∧ convert_timestamp t o₂ = some s₂ ∧
      pHMSF s₁ = some (tv + v₁) ∧ pHMSF s₂ = some (tv + v₂) ∧
      tv + v₂ = (tv + v₁) + (v₂ - v₁) :=
  ⟨formatHMSF (tv + v₁), formatHMSF (tv + v₂),
    convert_timestamp_eq t o₁ tv v₁ ht h₁, convert_timestamp_eq t o₂ tv v₂ ht h₂,
    pHMSF_formatHMSF _ (by omega), pHMSF_formatHMSF _ hbound, by omega⟩

/-- Witness for the amended C7 at a one-second offset increase. -/
theorem claim7_offset_monotonic_witness :
    ∃ s₁ s₂ : String, convert_timestamp "00:00:00" "00:00:00.00" = some s₁ ∧
      convert_timestamp "00:00:00" "00:00:01.00" = some s₂ ∧
      pHMSF s₁ = some (0 + 0) ∧ pHMSF s₂ = some (0 + 1000000) ∧
      0 + 1000000 = (0 + 0) + (1000000 - 0) :=
  claim7_offset_monotonic "00:00:00" "00:00:00.00" "00:00:01.00" 0 0 1000000
    (by decide) (by decide) (by decide) (by decide) (by decide)

/-- Claim C8, counterexample: the four-field string `00:01:00:00` does not
match the `'%M:%S:%f'` shape (`:00` is unconverted data), so the
normalizer raises instead of returning `01:01:00.000000`. -/
theorem claim8_timestamp_counterexample :
    convert_timestamp "00:01:00:00" "01:00:00.00" = none := by decide

/-- Claim C8, amended: the three-field timestamp `01:00:00` (one minute)
with offset `01:00:00.00` normalizes to `01:01:00.000000`; the original
input `00:01:00:00` is rejected as malformed. -/
theorem claim8_concrete_conversion :
    convert_timestamp "01:00:00" "01:00:00.00" = some "01:01:00.000000" := by decide

/-! The sanitizer `replace_invalid_characters`: idempotency and
pass-through on titles free of reserved characters. -/

/-- One character through the nine sequential substitutions equals the
single dispatch `substAll` (no substitute is a later target). -/
theorem substSteps_eq_substAll (c : Char) :
    (fun c => if c = '*' then '＊' else c)
      ((fun c => if c = '?' then '？' else c)
        ((fun c => if c = '|' then '∣' else c)
          ((fun c => if c = '\\' then '＼' else c)
            ((fun c => if c = '/' then '／' else c)
              ((fun c => if c = Char.ofNat 34 then Char.ofNat 39 else c)
                ((fun c => if c = ':' then '：' else c)
                  ((fun c => if c = '>' then '›' else c)
                    ((fun c => if c = '<' then '‹' else c) c)))))))) = substAll c := by
  by_cases h1 : c = '<'
  · subst h1; decide
  by_cases h2 : c = '>'
  · subst h2; decide
  by_cases h3 : c = ':'
  · subst h3; decide
  by_cases h4 : c = Char.ofNat 34
  · subst h4; decide
  by_cases h5 : c = '/'
  · subst h5; decide
  by_cases h6 : c = '\\'
  · subst h6; decide
  by_cases h7 : c = '|'
  · subst h7; decide
  by_cases h8 : c = '?'
  · subst h8; decide
  by_cases h9 : c = '*'
  · subst h9; decide
  have hR : substAll c = c := by
    unfold substAll
    rw [if_neg h1, if_neg h2, if_neg h3, if_neg h4, if_neg h5, if_neg h6, if_neg h7,
      if_neg h8, if_neg h9]
  rw [hR,
    show (fun c => if c = '<' then '‹' else c) c = c from if_neg h1,
    show (fun c => if c = '>' then '›' else c) c = c from if_neg h2,
    show (fun c => if c = ':' then '：' else c) c = c from if_neg h3,
    show (fun c => if c = Char.ofNat 34 then Char.ofNat 39 else c) c = c from if_neg h4,
    show (fun c => if c = '/' then '／' else c) c = c from if_neg h5,
    show (fun c => if c = '\\' then '＼' else c) c = c from if_neg h6,
    show (fun c => if c = '|' then '∣' else c) c = c from if_neg h7,
    show (fun c => if c = '?' then '？' else c) c = c from if_neg h8,
    show (fun c => if c = '*' then '＊' else c) c = c from if_neg h9]

/-- The nine maps, one per table entry in order, equal one map of
`substAll`. -/
theorem map_chain_eq (l : List Char) :
    List.map (fun c => if c = '*' then '＊' else c)
      (List.map (fun c => if c = '?' then '？' else c)
        (List.map (fun c => if c = '|' then '∣' else c)
          (List.map (fun c => if c = '\\' then '＼' else c)
            (List.map (fun c => if c = '/' then '／' else c)
              (List.map (fun c => if c = Char.ofNat 34 then Char.ofNat 39 else c)
                (List.map (fun c => if c = ':' then '：' else c)
                  (List.map (fun c => if c = '>' then '›' else c)
                    (List.map (fun c => if c = '<' then '‹' else c) l)))))))) =
      List.map substAll l := by
  induction l with
  | nil => rfl
  | cons c t ih =>
    rw [List.map_cons, List.map_cons, List.map_cons, List.map_cons, List.map_cons,
      List.map_cons, List.map_cons, List.map_cons, List.map_cons, List.map_cons, ih]
    exact congrArg (fun x => x :: List.map substAll t) (substSteps_eq_substAll c)

/-- The nine folded `replace` calls equal one map of the composite
substitution. -/
theorem replace_invalid_eq_map (title : String) :
    INVALID_CHARACTERS.foldl (fun t p => pyReplaceChar t p.1 p.2) title =
      String.mk (title.data.map substAll) := by
  obtain ⟨l⟩ := title
  simp only [INVALID_CHARACTERS, List.foldl_cons, List.foldl_nil, pyReplaceChar]
  exact congrArg String.mk (map_chain_eq l)

/-- The composite substitution is a retraction: its outputs are fixpoints
(no substitute character is itself a reserved character). -/
theorem substAll_fix (c : Char) : substAll (substAll c) = substAll c := by
  by_cases h1 : c = '<'
  · subst h1; decide
  by_cases h2 : c = '>'
  · subst h2; decide
  by_cases h3 : c = ':'
  · subst h3; decide
  by_cases h4 : c = Char.ofNat 34
  · subst h4; decide
  by_cases h5 : c = '/'
  · subst h5; decide
  by_cases h6 : c = '\\'
  · subst h6; decide
  by_cases h7 : c = '|'
  · subst h7; decide
  by_cases h8 : c = '?'
  · subst h8; decide
  by_cases h9 : c = '*'
  · subst h9; decide
  have hfix : substAll c = c := by
    unfold substAll
    simp only [if_neg h1, if_neg h2, if_neg h3, if_neg h4, if_neg h5, if_neg h6,
      if_neg h7, if_neg h8, if_neg h9]
  rw [hfix]
  exact hfix

/-- A character untouched by every table entry is a fixpoint of the
composite substitution. -/
theorem substAll_of_not_reserved (c : Char)
    (h : ∀ q ∈ INVALID_CHARACTERS, c ≠ q.1) : substAll c = c := by
  unfold substAll
  simp only [if_neg (h ('<', '‹') (by decide)), if_neg (h ('>', '›') (by decide)),
    if_neg (h (':', '：') (by decide)),
    if_neg (h (Char.ofNat 34, Char.ofNat 39) (by decide)),
    if_neg (h ('/', '／') (by decide)), if_neg (h ('\\', '＼') (by decide)),
    if_neg (h ('|', '∣') (by decide)), if_neg (h ('?', '？') (by decide)),
    if_neg (h ('*', '＊') (by decide))]

theorem mem_of_mem_stripEnds (p : Char → Bool) (l : List Char) (c : Char)
    (hc : c ∈ stripEnds p l) : c ∈ l := by
  unfold stripEnds at hc
  rw [List.mem_reverse] at hc
  have hc2 : c ∈ (List.dropWhile p l).reverse :=
    (List.dropWhile_sublist p).mem hc
  rw [List.mem_reverse] at hc2
  exact (List.dropWhile_sublist p).mem hc2

theorem dropWhile_head_false (p : Char → Bool) (l : List Char) (c : Char)
    (h : (List.dropWhile p l).head? = some c) : p c = false := by
  induction l with
  | nil => simp at h
  | cons a t ih =>
    by_cases ha : p a
    · rw [List.dropWhile_cons_of_pos ha] at h
      exact ih h
    · rw [List.dropWhile_cons_of_neg ha] at h
      simp only [List.head?_cons, Option.some.injEq] at h
      simp only [Bool.not_eq_true] at ha
      rw [← h]
      exact ha

theorem dropWhile_idem (p : Char → Bool) (l : List Char) :
    List.dropWhile p (List.dropWhile p l) = List.dropWhile p l := by
  induction l with
  | nil => rfl
  | cons a t ih =>
    by_cases ha : p a
    · rw [List.dropWhile_cons_of_pos ha]
      exact ih
    · rw [List.dropWhile_cons_of_neg ha, List.dropWhile_cons_of_neg ha]

/-- Stripping both ends is idempotent. -/
theorem stripEnds_idem (p : Char → Bool) (l : List Char) :
    stripEnds p (stripEnds p l) = stripEnds p l := by
  unfold stripEnds
  have hA : List.dropWhile p
      ((List.dropWhile p (List.dropWhile p l).reverse).reverse) =
      (List.dropWhile p (List.dropWhile p l).reverse).reverse := by
    cases hx : (List.dropWhile p (List.dropWhile p l).reverse).reverse with
    | nil => rfl
    | cons x xs =>
      have hxl : (List.dropWhile p (List.dropWhile p l).reverse).getLast? = some x := by
        rw [List.getLast?_eq_head?_reverse, hx]
        rfl
      have hsuf : List.dropWhile p (List.dropWhile p l).reverse <:+
          (List.dropWhile p l).reverse := List.dropWhile_suffix p
      obtain ⟨pre, hp⟩ := hsuf
      have hal : ((List.dropWhile p l).reverse).getLast? = some x := by
        rw [← hp, List.getLast?_append, hxl]
        rfl
      rw [List.getLast?_reverse] at hal
      have hpx : p x = false := dropWhile_head_false p l x hal
      rw [List.dropWhile_cons_of_neg (by simp [hpx])]
  rw [hA, List.reverse_reverse, dropWhile_idem]

/-- Claim C9: the title sanitizer is total and idempotent, and a string
containing none of the reserved characters passes through unchanged except
for whitespace trimming. -/
theorem claim9_sanitizer_idempotent :
    (∀ s : String, replace_invalid_characters (replace_invalid_characters s) =
      replace_invalid_characters s) ∧
    (∀ s : String, (∀ c ∈ s.data, ∀ q ∈ INVALID_CHARACTERS, c ≠ q.1) →
      replace_invalid_characters s = pyStrip s) := by
  have hre : ∀ s : String, replace_invalid_characters s =
      String.mk (stripEnds pyIsSpace (s.data.map substAll)) := by
    intro s
    unfold replace_invalid_characters pyStrip
    rw [replace_invalid_eq_map]
  constructor
  · intro s
    rw [hre s, hre (String.mk (stripEnds pyIsSpace (s.data.map substAll)))]
    show String.mk (stripEnds pyIsSpace
      ((stripEnds pyIsSpace (s.data.map substAll)).map substAll)) = _
    have hmap : (stripEnds pyIsSpace (s.data.map substAll)).map substAll =
        (stripEnds pyIsSpace (s.data.map substAll)).map id :=
      List.map_congr_left (fun c hc => by
        obtain ⟨a, _, rfl⟩ := List.mem_map.mp (mem_of_mem_stripEnds _ _ c hc)
        exact substAll_fix a)
    rw [hmap, List.map_id, stripEnds_idem]
  · intro s hs
    rw [hre s]
    have hmap : s.data.map substAll = s.data.map id :=
      List.map_congr_left (fun c hc => substAll_of_not_reserved c (hs c hc))
    rw [hmap, List.map_id]
    rfl

/-- Witness for C9: a double application on a concrete title, and the
pass-through on a reserved-character-free title. -/
theorem claim9_sanitizer_idempotent_witness :
    replace_invalid_characters (replace_invalid_characters " a<b ") =
      replace_invalid_characters " a<b " ∧
    replace_invalid_characters " ab " = pyStrip " ab " :=
  ⟨claim9_sanitizer_idempotent.1 " a<b ",
   claim9_sanitizer_idempotent.2 " ab " (by decide)⟩
